import Mathlib

/-!
Verification of the EMV PAN-extraction core of the PN532 component
(`pn532_mifare_plus.cpp`) against its natural-language specification.

The C++ code is shallowly embedded: byte buffers (`std::vector<uint8_t>`)
become `List Nat` whose elements are byte values, out-of-bounds vector
indexing (undefined behaviour in C++) becomes an `Option` error branch
(`none`), and the external NFC transport is a scripted list of responses.
Loop counters that are `uint8_t` in the source are modelled as `Nat`;
theorems quantifying over buffers therefore carry a `length ≤ 255` bound,
inside which the model and the source agree step for step.
-/

/-! # Track-data parsers (`parse_nibbles`, `parse_track2`, `parse_pan`, `parse_track1`) -/

/-- The scanning loop of `parse_nibbles` (source lines 15–26): split each
byte into high and low nibble, stop at the first nibble equal to the
terminator (the terminator itself is never emitted; a terminator in the
low nibble still emits the high nibble).  Returns the emitted digits and
the final value of `pos`, the count of bytes fully consumed without
meeting the terminator. -/
def nibbleLoop (term : Nat) : List Nat → List Nat × Nat
  | [] => ([], 0)
  | b :: rest =>
    if b / 16 = term then ([], 0)
    else if b % 16 = term then ([b / 16], 0)
    else
      let rp := nibbleLoop term rest
      (b / 16 :: b % 16 :: rp.1, rp.2 + 1)

/-- Embedding of `parse_nibbles` (source lines 12–33): run the nibble scan,
then reject (empty result) unless the byte position lies in `[3, 10]`. -/
def parse_nibbles (data : List Nat) (term : Nat) : List Nat :=
  let rp := nibbleLoop term data
  if 10 < rp.2 ∨ rp.2 < 3 then [] else rp.1

/-- Embedding of `parse_track2` (source lines 34–46): nibble parse with the
Track 2 field separator `0xD` as terminator. -/
def parse_track2 (data : List Nat) : List Nat := parse_nibbles data 13

/-- Embedding of `parse_pan` (source lines 48–55): nibble parse with the
padding nibble `0xF` as terminator. -/
def parse_pan (data : List Nat) : List Nat := parse_nibbles data 15

/-- Specification-level byte predicate: neither nibble of `b` is the
terminator, so the `parse_nibbles` scan passes over `b` whole. -/
def noTermByte (term b : Nat) : Bool := !(b / 16 == term) && !(b % 16 == term)

/-- Specification-level count of bytes fully consumed by the nibble scan:
the length of the maximal prefix free of the terminator nibble. -/
def nibbleStopSpec (data : List Nat) (term : Nat) : Nat :=
  (data.takeWhile (noTermByte term)).length

/-- Specification-level digit sequence of the nibble scan: both nibbles of
every byte before the terminator, plus the high nibble of the stopping
byte when the terminator sits in its low nibble. -/
def nibbleDigitsSpec (data : List Nat) (term : Nat) : List Nat :=
  ((data.takeWhile (noTermByte term)).map (fun b => [b / 16, b % 16])).flatten
    ++ (match data.dropWhile (noTermByte term) with
        | [] => []
        | b :: _ => if b / 16 = term then [] else [b / 16])

/-- Specification-level `parse_nibbles`: emit the scanned digits exactly
when the count of bytes consumed lies in `[3, 10]`; when no terminator
occurs that count is the whole buffer length and the same interval check
applies to it. -/
def parseNibblesSpec (data : List Nat) (term : Nat) : List Nat :=
  if 3 ≤ nibbleStopSpec data term ∧ nibbleStopSpec data term ≤ 10 then
    nibbleDigitsSpec data term
  else []

/-- The scanning loop of `parse_track1` (source lines 73–83), started at
absolute position `pos`: collect digit values until the caret, `none` on
any byte that is neither a digit nor `'^'`; on success returns the digits
together with the final `pos` (the caret's index, or the buffer length
when no caret occurred). -/
def track1Loop : List Nat → Nat → Option (List Nat × Nat)
  | [], pos => some ([], pos)
  | d :: rest, pos =>
    if d = 94 then some ([], pos)
    else if d < 48 ∨ 57 < d then none
    else (track1Loop rest (pos + 1)).map (fun rp => ((d - 48) :: rp.1, rp.2))

/-- Embedding of `parse_track1` (source lines 58–90): require a leading
`'B'` (66), scan digits up to `'^'` (94), then reject when the caret was
never reached (`pos ≥ size`) or `pos > 20`. -/
def parse_track1 (data : List Nat) : List Nat :=
  match data with
  | [] => []
  | b :: rest =>
    if b ≠ 66 then []
    else
      match track1Loop rest 1 with
      | none => []
      | some rp => if rp.2 ≥ data.length ∨ rp.2 > 20 then [] else rp.1

/-- Specification-level ASCII digit test. -/
def isAsciiDigit (d : Nat) : Bool := decide (48 ≤ d) && decide (d ≤ 57)

/-- Specification-level `parse_track1`: the digit values of the maximal
digit run after the leading `'B'`, provided the run is terminated by a
caret and holds at most 19 digits; empty in every other case. -/
def track1Spec (data : List Nat) : List Nat :=
  match data with
  | [] => []
  | b :: rest =>
    if b ≠ 66 then []
    else
      match rest.dropWhile isAsciiDigit with
      | [] => []
      | c :: _ =>
        if c ≠ 94 then []
        else if 19 < (rest.takeWhile isAsciiDigit).length then []
        else (rest.takeWhile isAsciiDigit).map (fun d => d - 48)

/-- Specification-level value of one `track1Loop` run: the digit values of
the maximal digit prefix, stopping position included; `none` when the
first non-digit byte is not the caret. -/
def track1LoopSpec (l : List Nat) (pos : Nat) : Option (List Nat × Nat) :=
  match l.dropWhile isAsciiDigit with
  | [] => some ((l.takeWhile isAsciiDigit).map (fun d => d - 48), pos + l.length)
  | c :: _ =>
    if c = 94 then
      some ((l.takeWhile isAsciiDigit).map (fun d => d - 48),
            pos + (l.takeWhile isAsciiDigit).length)
    else none

/-! # TLV codec (`findTag`) -/

/-- The header decode shared by every `findTag` step (source lines 420–429):
one tag byte, a second tag byte when the low 5 bits of the first are all
set, one length byte, and a second length byte when the first has its high
bit set.  Returns `(tag, len, headerLen)`.  `none` marks the out-of-bounds
read `ber_data[3]` that the source performs on a 3-byte buffer whose tag is
two bytes wide and whose length byte has the high bit set (C++ undefined
behaviour); only `findTag`'s callers guarantee at least 3 bytes, so the
catch-all is also `none`. -/
def decodeHeader (ber : List Nat) : Option (Nat × Nat × Nat) :=
  match ber with
  | b0 :: b1 :: b2 :: rest =>
    if b0 % 32 = 31 then
      if b2 &&& 128 ≠ 0 then
        match rest with
        | [] => none
        | l1 :: _ => some (b0 * 256 + b1, l1, 4)
      else some (b0 * 256 + b1, b2, 3)
    else
      if b1 &&& 128 ≠ 0 then some (b0, b2, 3)
      else some (b0, b1, 2)
  | _ => none

/-- The fixed constructed-tag set of `findTag` (source line 436). -/
def isConstructed (t : Nat) : Bool :=
  t == 0x6F || t == 0xA5 || t == 0xBF0C || t == 0x61 || t == 0x77 || t == 0x70

/-- Embedding of `PN532::findTag` (source lines 414–454), with an explicit
fuel bounding the recursion depth.  Each recursive call is on a buffer at
least 2 bytes shorter, so the wrapper's fuel (the buffer length) is never
exhausted; the fuel-0 value `some []` is the value the source returns for
every buffer shorter than 3 bytes, the only buffers reachable at fuel 0
when the fuel starts at the buffer length.  `none` propagates the
out-of-bounds read of `decodeHeader`. -/
def findTagF : Nat → List Nat → Nat → Option (List Nat)
  | 0, _, _ => some []
  | fuel + 1, ber, tgt =>
    if ber.length < 3 then some []
    else
      match decodeHeader ber with
      | none => none
      | some (tag, len, hl) =>
        if len + hl ≤ ber.length then
          let v := (ber.drop hl).take len
          if tag = tgt then some v
          else
            (if isConstructed tag then findTagF fuel v tgt else some []).bind fun child =>
              if child ≠ [] then some child
              else if len + hl < ber.length then findTagF fuel (ber.drop (hl + len)) tgt
              else some []
        else some []

/-- Embedding of `PN532::findTag`: the recursion depth is bounded by the
buffer length (every recursive call strips at least the 2 header bytes), so
`ber.length` is always enough fuel. -/
def findTag (ber : List Nat) (tgt : Nat) : Option (List Nat) :=
  findTagF ber.length ber tgt

/-- Specification-level depth-first enumeration of the values of every node
carrying the target tag, in the traversal order of the specification: the
first node, then (for a constructed tag) the nodes of its value, then the
nodes of the remaining sibling buffer.  It applies the same bounds rules as
the code: buffers shorter than 3 bytes hold no nodes, and a node whose
declared length exceeds the remaining buffer is malformed, ending the
enumeration. -/
def matchesDFSF : Nat → List Nat → Nat → List (List Nat)
  | 0, _, _ => []
  | fuel + 1, ber, tgt =>
    if ber.length < 3 then []
    else
      match decodeHeader ber with
      | none => []
      | some (tag, len, hl) =>
        if len + hl ≤ ber.length then
          let v := (ber.drop hl).take len
          (if tag = tgt then [v] else [])
            ++ (if isConstructed tag then matchesDFSF fuel v tgt else [])
            ++ (if len + hl < ber.length then matchesDFSF fuel (ber.drop (hl + len)) tgt
                else [])
        else []

/-- Wrapper for `matchesDFSF` at the same fuel as `findTag`. -/
def matchesDFS (ber : List Nat) (tgt : Nat) : List (List Nat) :=
  matchesDFSF ber.length ber tgt

/-! # APDU transceiver (`sendAPDU`) -/

/-- Result of one `sendAPDU` call: `oob` marks an out-of-bounds read of the
response vector (C++ undefined behaviour), `fail` the `false` return, and
`ok payload` the `true` return with the response rewritten to the bare
payload. -/
inductive ApduResult where
  | oob : ApduResult
  | fail : ApduResult
  | ok : List Nat → ApduResult
deriving DecidableEq

/-- Embedding of `PN532::sendAPDU` (source lines 284–314).  The transport
is abstracted at its interface: `writeOk` stands for `write_command_`
succeeding on the framed command, and `readRes` is `none` when
`read_response` fails, `some resp` when it delivers `resp`.  The source
then requires the first response byte to be zero and the last two bytes to
be `0x90 0x00`, and returns the response with the leading byte and the two
trailing status bytes stripped.  An empty response makes `response[0]`
out of bounds, and a 1-byte response makes `response[size - 2]` out of
bounds (the status-word read happens after the first-byte check). -/
def sendAPDU (writeOk : Bool) (readRes : Option (List Nat)) : ApduResult :=
  if writeOk = false then ApduResult.fail
  else
    match readRes with
    | none => ApduResult.fail
    | some resp =>
      match resp with
      | [] => ApduResult.oob
      | r0 :: tail =>
        if r0 ≠ 0 then ApduResult.fail
        else if (r0 :: tail).length < 2 then ApduResult.oob
        else if (r0 :: tail).getD ((r0 :: tail).length - 1) 0 ≠ 0x00
            ∨ (r0 :: tail).getD ((r0 :: tail).length - 2) 0 ≠ 0x90 then ApduResult.fail
        else ApduResult.ok (((r0 :: tail).drop 1).take ((r0 :: tail).length - 3))

/-! # PDOL synthesizer (`constructPdolData`) -/

/-- The per-tag value table of `constructPdolData`'s `switch` (source lines
369–407).  The requested length is honoured only in the default branch
(`tagValue.resize(len, 0)`); known tags emit their fixed byte patterns.
The `0x9A` branch reads the system clock and then overwrites the result
with the constant below, so the clock read is dead code. -/
def pdolValue (tag len : Nat) : List Nat :=
  if tag = 0x9F66 then [0xF0, 0x20, 0x40, 0x00]
  else if tag = 0x9F02 ∨ tag = 0x9F03 then [0x00, 0x00, 0x00, 0x00, 0x10, 0x00]
  else if tag = 0x9F1A then [0x02, 0x76]
  else if tag = 0x5F2A then [0x09, 0x78]
  else if tag = 0x9A then [0x23, 0x11, 0x25]
  else if tag = 0x9F37 then [0xB5, 0x43, 0xFF, 0x89]
  else List.replicate len 0

/-- Embedding of `PN532::constructPdolData` (source lines 353–412), with an
explicit fuel (each iteration erases 2 or 3 bytes from the front of
`pdol`, so the wrapper's fuel — the buffer length — never runs out; at
fuel 0 the buffer is empty and the source's `size < 2` exit applies).
Returns `(result, final pdol)`: the source takes `pdol` by reference and
consumes it with `erase`, so the buffer's final state is observable by the
caller.  `none` marks the out-of-bounds read `pdol[2]` the source performs
when exactly 2 bytes remain and the tag is two bytes wide. -/
def constructPdolDataF : Nat → List Nat → Option (List Nat × List Nat)
  | 0, pdol => some ([], pdol)
  | fuel + 1, pdol =>
    if pdol.length < 2 then some ([], pdol)
    else
      match pdol with
      | t0 :: t1 :: rest =>
        if t0 % 32 = 31 then
          match rest with
          | [] => none
          | l :: rest2 =>
            (constructPdolDataF fuel rest2).map
              (fun rp => (pdolValue (t0 * 256 + t1) l ++ rp.1, rp.2))
        else
          (constructPdolDataF fuel rest).map
            (fun rp => (pdolValue t0 t1 ++ rp.1, rp.2))
      | _ => some ([], pdol)

/-- Embedding of `PN532::constructPdolData`: fuel instantiated with the
buffer length, which bounds the iteration count. -/
def constructPdolData (pdol : List Nat) : Option (List Nat × List Nat) :=
  constructPdolDataF pdol.length pdol

/-! # EMV read orchestrator (`read_mifare_plus_bytes_`) -/

/-- Modelled from the spec: `nfc::EMV_TAG_AID` is defined outside this
repository's sources; the orchestrator's comment (source line 121) says
the PPSE response carries the AID in tag `4F`. -/
def EMV_TAG_AID : Nat := 0x4F

/-- Modelled from the spec: `nfc::EMV_TAG_PDOL` is defined outside this
repository's sources; the Processing Options Data Object List is EMV tag
`9F38`. -/
def EMV_TAG_PDOL : Nat := 0x9F38

/-- Modelled from the spec: `nfc::EMV_TAG_TRACK2` is defined outside this
repository's sources; Track 2 Equivalent Data is EMV tag `57` (the
`emvlab` t57 reference at source line 36). -/
def EMV_TAG_TRACK2 : Nat := 0x57

/-- Modelled from the spec: `nfc::EMV_TAG_TRACK1` is defined outside this
repository's sources; Track 1 Data is EMV tag `56`. -/
def EMV_TAG_TRACK1 : Nat := 0x56

/-- Modelled from the spec: `nfc::EMV_TAG_PAN` is defined outside this
repository's sources; the Primary Account Number field is EMV tag `5A`. -/
def EMV_TAG_PAN : Nat := 0x5A

/-- Modelled from the spec: `nfc::EMV_TAG_COMMAND` is defined outside this
repository's sources; the GPO command wraps the PDOL data in tag `83`
(spec §6 wire format). -/
def EMV_TAG_COMMAND : Nat := 0x83

/-- The scripted-transport state threaded through one orchestrator run:
the remaining scripted answers (one per `sendAPDU` call; `none` scripts a
transport failure) and the APDUs issued so far, in order. -/
structure TState where
  script : List (Option (List Nat))
  issued : List (List Nat)

/-- One `sendAPDU` call against the scripted transport: records the issued
APDU, consumes one scripted answer (an exhausted script behaves as a
transport failure) and evaluates `sendAPDU` on it. -/
def sendStep (apdu : List Nat) (st : TState) : ApduResult × TState :=
  match st.script with
  | [] => (ApduResult.fail, ⟨[], st.issued ++ [apdu]⟩)
  | e :: rest => (sendAPDU true e, ⟨rest, st.issued ++ [apdu]⟩)

/-- The source's three-attempt retry pattern (source lines 142–152 and
191–201): the same APDU is sent up to three times, stopping at the first
success.  `none` propagates an `oob` transport result; `some (none, st)`
means all three attempts failed; `some (some resp, st)` carries the first
successful payload. -/
def try3 (apdu : List Nat) (st : TState) : Option (Option (List Nat) × TState) :=
  match sendStep apdu st with
  | (ApduResult.oob, _) => none
  | (ApduResult.ok r, st1) => some (some r, st1)
  | (ApduResult.fail, st1) =>
    match sendStep apdu st1 with
    | (ApduResult.oob, _) => none
    | (ApduResult.ok r, st2) => some (some r, st2)
    | (ApduResult.fail, st2) =>
      match sendStep apdu st2 with
      | (ApduResult.oob, _) => none
      | (ApduResult.ok r, st3) => some (some r, st3)
      | (ApduResult.fail, st3) => some (none, st3)

/-- The record loop of the AFL scan (source lines 229–260) over the
records of one AFL entry; `n` is the number of records still to visit
(`endRec + 1 - start` at the call site).  `start` and the record bound are
`uint8_t` in the source, so the C++ loop would wrap around — and never
terminate — only in the `end = 255` corner, which this model leaves out.
A failed READ RECORD is skipped (non-fatal).  On a successful read,
Track 2, Track 1 and the plain PAN tag are searched in that order; the
first nonempty value is parsed — the parse result is discarded — and the
whole read returns `false`.  Result: `none` for an error branch,
`some (some b, st)` for an early `return b`, `some (none, st)` when the
loop ran to completion. -/
def recordLoop (sfi : Nat) : Nat → Nat → TState → Option (Option Bool × TState)
  | 0, _, st => some (none, st)
  | n + 1, start, st =>
    match sendStep [0x00, 0xB2, start, sfi, 0x00] st with
    | (ApduResult.oob, _) => none
    | (ApduResult.fail, st1) => recordLoop sfi n (start + 1) st1
    | (ApduResult.ok resp, st1) =>
      (findTag resp EMV_TAG_TRACK2).bind fun pan =>
        if pan ≠ [] then
          let _ := parse_track2 pan
          some (some false, st1)
        else
          (findTag resp EMV_TAG_TRACK1).bind fun pan1 =>
            if pan1 ≠ [] then
              let _ := parse_track1 pan1
              some (some false, st1)
            else
              (findTag resp EMV_TAG_PAN).bind fun pan2 =>
                if pan2 ≠ [] then
                  let _ := parse_pan pan2
                  some (some false, st1)
                else recordLoop sfi n (start + 1) st1

/-- The AFL entry loop (source lines 221–261).  The source's loop condition
`pos < afl.size() - 4` admits an entry only while more than 4 bytes remain
past `pos`, so an entry is processed exactly when at least 5 bytes of the
AFL suffix are left — the final 4-byte entry is never visited.  The SFI
byte keeps its top 5 bits and gets the read-all-records marker `0b100` in
the low 3 bits. -/
def entryLoop : List Nat → TState → Option (Option Bool × TState)
  | a :: b :: c :: _d :: e :: rest, st =>
    (recordLoop ((a &&& 248) ||| 4) (c + 1 - b) b st).bind fun rs =>
      match rs.1 with
      | some bres => some (some bres, rs.2)
      | none => entryLoop (e :: rest) rs.2
  | _, st => some (none, st)

/-- The fixed SELECT PPSE command (source lines 110–115): SELECT with data
the ASCII directory name `2PAY.SYS.DDF01`. -/
def ppseApdu : List Nat :=
  [0x00, 0xA4, 0x04, 0x00, 0x0E,
   0x32, 0x50, 0x41, 0x59, 0x2E, 0x53, 0x59, 0x53, 0x2E, 0x44, 0x44, 0x46, 0x30, 0x31,
   0x00]

/-- Embedding of `PN532::read_mifare_plus_bytes_` (source lines 104–279)
against a scripted transport.  The `start_page`/`num_bytes` parameters and
the `data` out-parameter play no role in the source (`data` is never
written), so the model takes only the script and returns the boolean
result with the APDUs issued, in order; `none` is an error branch reached
in a callee.  The `yield()` calls are scheduler courtesies with no data
effect.  Every `return` statement of the source returns `false`. -/
def read_mifare_plus_bytes_ (script : List (Option (List Nat))) :
    Option (Bool × List (List Nat)) :=
  match sendStep ppseApdu ⟨script, []⟩ with
  | (ApduResult.oob, _) => none
  | (ApduResult.fail, st1) => some (false, st1.issued)
  | (ApduResult.ok resp1, st1) =>
    (findTag resp1 EMV_TAG_AID).bind fun adf =>
      if adf = [] then some (false, st1.issued)
      else
        (try3 ([0x00, 0xA4, 0x04, 0x00] ++ [adf.length] ++ adf ++ [0x00]) st1).bind
          fun rs2 =>
        match rs2.1 with
        | none => some (false, rs2.2.issued)
        | some resp2 =>
          (findTag resp2 EMV_TAG_PDOL).bind fun pdol =>
            (constructPdolData pdol).bind fun pd =>
              (try3 ([0x80, 0xA8, 0x00, 0x00]
                  ++ [pd.1.length + 2, EMV_TAG_COMMAND, pd.1.length] ++ pd.1 ++ [0x00])
                rs2.2).bind fun rs3 =>
              match rs3.1 with
              | none => some (false, rs3.2.issued)
              | some resp3 =>
                (findTag resp3 EMV_TAG_TRACK2).bind fun track2 =>
                  if track2 ≠ [] then
                    let _ := parse_track2 track2
                    some (false, rs3.2.issued)
                  else
                    (findTag resp3 0x94).bind fun afl =>
                      if afl.length < 4 ∨ afl.length % 4 ≠ 0 then
                        some (false, rs3.2.issued)
                      else
                        (entryLoop afl rs3.2).bind fun rl =>
                          match rl.1 with
                          | some b => some (b, rl.2.issued)
                          | none => some (false, rl.2.issued)

/-! # Theorems -/

theorem nibbleLoop_spec (term : Nat) (data : List Nat) :
    nibbleLoop term data = (nibbleDigitsSpec data term, nibbleStopSpec data term) := by
  induction data with
  | nil => simp [nibbleLoop, nibbleDigitsSpec, nibbleStopSpec]
  | cons b rest ih =>
    by_cases hhi : b / 16 = term
    · simp [nibbleLoop, nibbleDigitsSpec, nibbleStopSpec, noTermByte, hhi,
        List.takeWhile_cons, List.dropWhile_cons]
    · by_cases hlo : b % 16 = term
      · simp [nibbleLoop, nibbleDigitsSpec, nibbleStopSpec, noTermByte, hhi, hlo,
          List.takeWhile_cons, List.dropWhile_cons]
      · simp [nibbleLoop, nibbleDigitsSpec, nibbleStopSpec, noTermByte, hhi, hlo,
          List.takeWhile_cons, List.dropWhile_cons, ih]

theorem track1Loop_spec (l : List Nat) (pos : Nat) :
    track1Loop l pos = track1LoopSpec l pos := by
  induction l generalizing pos with
  | nil => simp [track1Loop, track1LoopSpec]
  | cons d rest ih =>
    by_cases hc : d = 94
    · simp [track1Loop, track1LoopSpec, hc, isAsciiDigit, List.dropWhile_cons,
        List.takeWhile_cons]
    · by_cases hd : 48 ≤ d ∧ d ≤ 57
      · have hnd : ¬(d < 48 ∨ 57 < d) := by omega
        have hb : isAsciiDigit d = true := by simp [isAsciiDigit, hd.1, hd.2]
        simp only [track1Loop, if_neg hc, if_neg hnd, ih, track1LoopSpec,
          List.dropWhile_cons, List.takeWhile_cons, hb, if_true, List.length_cons]
        cases hrest : rest.dropWhile isAsciiDigit with
        | nil => simp [hrest]; omega
        | cons c cs =>
          by_cases hc94 : c = 94
          · simp [hrest, hc94]
            omega
          · simp [hrest, hc94]
      · have hnd : d < 48 ∨ 57 < d := by omega
        have hb : isAsciiDigit d = false := by
          rcases hnd with h | h <;> simp [isAsciiDigit] <;> omega
        simp [track1Loop, track1LoopSpec, if_neg hc, if_pos hnd,
          List.dropWhile_cons, List.takeWhile_cons, hb, hc]

/-- C3 counterexample.  The claim states that `parse_nibbles` returns the
empty sequence whenever no terminator nibble occurs before the buffer is
exhausted.  On `[0x11, 0x22, 0x33]` with terminator `0xD` no nibble equals
the terminator, yet the code returns all six nibbles: the `[3, 10]` check
is applied to the final byte position (here 3, the buffer length) and
passes, so nothing rejects the missing terminator. -/
theorem parse_nibbles_no_terminator_counterexample :
    (∀ b ∈ ([0x11, 0x22, 0x33] : List Nat), b / 16 ≠ 13 ∧ b % 16 ≠ 13) ∧
    parse_nibbles [0x11, 0x22, 0x33] 13 = [1, 1, 2, 2, 3, 3] ∧
    ([1, 1, 2, 2, 3, 3] : List Nat) ≠ [] := by
  decide

/-- C3 amended.  `parse_nibbles` returns exactly the high-then-low nibbles
preceding the first terminator occurrence (terminator never emitted) when
the count of bytes fully consumed lies in `[3, 10]`, and the empty sequence
when that count is outside `[3, 10]`; when no terminator occurs the count
equals the buffer length and the same interval check applies to it, so a
3-to-10-byte buffer without a terminator returns all its nibbles.  The
length bound keeps the model inside the domain of the `uint8_t` position
counter of the source. -/
theorem parse_nibbles_amended (data : List Nat) (term : Nat)
    (h : data.length ≤ 255) :
    parse_nibbles data term = parseNibblesSpec data term := by
  simp only [parse_nibbles, parseNibblesSpec, nibbleLoop_spec]
  split_ifs with h1 h2 <;> first | rfl | (exfalso; omega)

/-- C3 witness: the amended theorem applied to the Track 2 bytes of the
specification's example, which stop at byte offset 8 and yield the 16
digits of the PAN. -/
theorem parse_nibbles_amended_witness :
    ([0x44, 0x00, 0x66, 0x49, 0x87, 0x36, 0x60, 0x29, 0xD2] : List Nat).length ≤ 255 ∧
    nibbleStopSpec [0x44, 0x00, 0x66, 0x49, 0x87, 0x36, 0x60, 0x29, 0xD2] 13 = 8 ∧
    parse_track2 [0x44, 0x00, 0x66, 0x49, 0x87, 0x36, 0x60, 0x29, 0xD2] =
      [4, 4, 0, 0, 6, 6, 4, 9, 8, 7, 3, 6, 6, 0, 2, 9] := by
  refine ⟨by decide, by decide, ?_⟩
  unfold parse_track2
  rw [parse_nibbles_amended [0x44, 0x00, 0x66, 0x49, 0x87, 0x36, 0x60, 0x29, 0xD2] 13
    (by decide)]
  decide

/-- C6 counterexample.  The claim rejects a Track 1 buffer only when more
than 20 digit bytes precede the caret, so with exactly 20 digits it
predicts the 20-digit result.  The code's check `pos > 20` counts the
leading `'B'` as well, so it already rejects 20 digits (its own comment
says it limits the PAN to 19 digits). -/
theorem parse_track1_twenty_digits_counterexample :
    parse_track1 (66 :: List.replicate 20 49 ++ [94]) = [] ∧
    List.replicate 20 1 ≠ ([] : List Nat) := by
  decide

/-- C6 amended.  `parse_track1` returns the digit values of the ASCII digit
bytes between the leading `'B'` and the first `'^'`, and returns empty
exactly when the buffer is empty, the first byte is not `'B'`, a byte
before the caret is a non-digit, the caret is never found, or more than
**19** digit bytes precede the caret (the code's bound counts the leading
format byte, limiting the PAN to 19 digits). -/
theorem parse_track1_amended (data : List Nat) (h : data.length ≤ 255) :
    parse_track1 data = track1Spec data := by
  cases data with
  | nil => rfl
  | cons b rest =>
    by_cases hb : b ≠ 66
    · simp [parse_track1, track1Spec, hb]
    · push_neg at hb
      subst hb
      have hlen : (rest.takeWhile isAsciiDigit).length
          + (rest.dropWhile isAsciiDigit).length = rest.length := by
        rw [← List.length_append, List.takeWhile_append_dropWhile]
      cases hrest : rest.dropWhile isAsciiDigit with
      | nil =>
        simp [parse_track1, track1Spec, track1Loop_spec, track1LoopSpec, hrest]
        omega
      | cons c cs =>
        rw [hrest] at hlen
        simp only [List.length_cons] at hlen
        by_cases hc : c = 94
        · simp [parse_track1, track1Spec, track1Loop_spec, track1LoopSpec, hrest, hc]
          split_ifs <;> first | rfl | (exfalso; omega)
        · simp [parse_track1, track1Spec, track1Loop_spec, track1LoopSpec, hrest, hc]

/-- C6 witness: the amended theorem applied to the ASCII bytes of
`"B4400664987366029^"`, yielding the specification's 16-digit PAN. -/
theorem parse_track1_amended_witness :
    ([66, 52, 52, 48, 48, 54, 54, 52, 57, 56, 55, 51, 54, 54, 48, 50, 57, 94] :
      List Nat).length ≤ 255 ∧
    parse_track1 [66, 52, 52, 48, 48, 54, 54, 52, 57, 56, 55, 51, 54, 54, 48, 50, 57, 94] =
      [4, 4, 0, 0, 6, 6, 4, 9, 8, 7, 3, 6, 6, 0, 2, 9] := by
  refine ⟨by decide, ?_⟩
  rw [parse_track1_amended
    [66, 52, 52, 48, 48, 54, 54, 52, 57, 56, 55, 51, 54, 54, 48, 50, 57, 94] (by decide)]
  decide

theorem decodeHeader_bounds {ber : List Nat} {t l hl : Nat}
    (h : decodeHeader ber = some (t, l, hl)) : 2 ≤ hl ∧ hl ≤ 4 ∧ 3 ≤ ber.length := by
  cases ber with
  | nil => simp [decodeHeader] at h
  | cons b0 tl =>
    cases tl with
    | nil => simp [decodeHeader] at h
    | cons b1 tl2 =>
      cases tl2 with
      | nil => simp [decodeHeader] at h
      | cons b2 rest =>
        simp only [decodeHeader] at h
        simp only [List.length_cons]
        split_ifs at h with h1 h2 h3
        · cases rest with
          | nil => simp at h
          | cons l1 r =>
            simp only [Option.some.injEq, Prod.mk.injEq] at h
            omega
        · simp only [Option.some.injEq, Prod.mk.injEq] at h
          omega
        · simp only [Option.some.injEq, Prod.mk.injEq] at h
          omega
        · simp only [Option.some.injEq, Prod.mk.injEq] at h
          omega

theorem findTagF_head (fuel : Nat) :
    ∀ (ber : List Nat) (tgt : Nat) (r : List Nat),
      ber.length ≤ fuel →
      findTagF fuel ber tgt = some r →
      [] ∉ matchesDFSF fuel ber tgt →
      r = (matchesDFSF fuel ber tgt).headD [] := by
  induction fuel with
  | zero =>
    intro ber tgt r _ hf _
    simp only [findTagF, Option.some.injEq] at hf
    simp [matchesDFSF, ← hf]
  | succ n ih =>
    intro ber tgt r hlen hf hm
    by_cases h3 : ber.length < 3
    · simp only [findTagF, if_pos h3, Option.some.injEq] at hf
      simp [matchesDFSF, if_pos h3, ← hf]
    · cases hd : decodeHeader ber with
      | none => simp [findTagF, if_neg h3, hd] at hf
      | some tlh =>
        obtain ⟨tag, len, hl⟩ := tlh
        obtain ⟨hhl2, hhl4, hb3⟩ := decodeHeader_bounds hd
        simp only [findTagF, if_neg h3, hd] at hf
        simp only [matchesDFSF, if_neg h3, hd] at hm ⊢
        by_cases hbnd : len + hl ≤ ber.length
        · simp only [if_pos hbnd] at hf hm ⊢
          by_cases htag : tag = tgt
          · simp only [if_pos htag, Option.some.injEq] at hf
            simp [if_pos htag, ← hf]
          · simp only [if_neg htag] at hf hm ⊢
            have hvlen : ((ber.drop hl).take len).length ≤ n := by
              simp only [List.length_take, List.length_drop]
              omega
            have hrlen : (ber.drop (hl + len)).length ≤ n := by
              simp only [List.length_drop]
              omega
            by_cases hcons : isConstructed tag = true
            · simp only [if_pos hcons] at hf hm ⊢
              cases hch : findTagF n ((ber.drop hl).take len) tgt with
              | none => rw [hch] at hf; simp at hf
              | some child =>
                rw [hch] at hf
                simp only [Option.some_bind] at hf
                have hmc : [] ∉ matchesDFSF n ((ber.drop hl).take len) tgt := by
                  intro hmem
                  exact hm (by simp [hmem])
                have hchild := ih _ tgt child hvlen hch hmc
                cases hcm : matchesDFSF n ((ber.drop hl).take len) tgt with
                | cons m ms =>
                  rw [hcm] at hchild
                  simp only [List.headD_cons] at hchild
                  subst hchild
                  have hmne : child ≠ [] := by
                    intro hmeq
                    subst hmeq
                    exact hm (by rw [hcm]; simp)
                  rw [if_pos hmne] at hf
                  simp only [Option.some.injEq] at hf
                  simp only [hcm] at hm ⊢
                  simp [← hf]
                | nil =>
                  rw [hcm] at hchild
                  simp only [List.headD_nil] at hchild
                  subst hchild
                  simp only [hcm] at hm ⊢
                  rw [if_neg (by simp)] at hf
                  by_cases hrem : len + hl < ber.length
                  · rw [if_pos hrem] at hf
                    rw [if_pos hrem] at hm ⊢
                    have hmr : [] ∉ matchesDFSF n (ber.drop (hl + len)) tgt := by
                      intro hmem
                      exact hm (by simp [hmem])
                    have hres := ih _ tgt r hrlen hf hmr
                    simpa using hres
                  · rw [if_neg hrem] at hf
                    rw [if_neg hrem] at hm ⊢
                    simp only [Option.some.injEq] at hf
                    simp [← hf]
            · simp only [if_neg hcons, Option.some_bind] at hf
              simp only [if_neg hcons] at hm ⊢
              rw [if_neg (by simp : ¬(([] : List Nat) ≠ []))] at hf
              by_cases hrem : len + hl < ber.length
              · rw [if_pos hrem] at hf
                rw [if_pos hrem] at hm ⊢
                have hmr : [] ∉ matchesDFSF n (ber.drop (hl + len)) tgt := by
                  intro hmem
                  exact hm (by simp [hmem])
                have hres := ih _ tgt r hrlen hf hmr
                simpa using hres
              · rw [if_neg hrem] at hf
                rw [if_neg hrem] at hm ⊢
                simp only [Option.some.injEq] at hf
                simp [← hf]
        · simp only [if_neg hbnd, Option.some.injEq] at hf
          simp [if_neg hbnd, ← hf]

/-- C4 counterexample.  The claim says `findTag` returns the value of the
first node whose tag equals the target in depth-first order.  In the buffer
below, the constructed node `6F` wraps a first `84`-tagged node whose value
is empty; the first DFS match therefore has value `[]`, but the code treats
the empty recursive result as "not found" and goes on to return the later
sibling's value `[0xAA]`. -/
theorem findTag_empty_match_counterexample :
    findTag [0x6F, 0x03, 0x84, 0x00, 0x99, 0x84, 0x01, 0xAA] 0x84 = some [0xAA] ∧
    matchesDFS [0x6F, 0x03, 0x84, 0x00, 0x99, 0x84, 0x01, 0xAA] 0x84 = [[], [0xAA]] ∧
    ([0xAA] : List Nat) ≠ [] := by
  decide

/-- C4 amended.  Provided no node carrying the target tag has an empty
value, `findTag` returns the value of the first matching node in the
depth-first traversal order (head of `matchesDFS`), and returns empty when
no node carries the target (the `headD` default); a buffer shorter than 3
bytes has no nodes at all.  Matches with empty values are conflated with
absence during the recursion, which is what the counterexample exhibits. -/
theorem findTag_first_nonempty_match (ber : List Nat) (tgt : Nat) (r : List Nat)
    (hf : findTag ber tgt = some r) (hm : [] ∉ matchesDFS ber tgt) :
    r = (matchesDFS ber tgt).headD [] :=
  findTagF_head ber.length ber tgt r le_rfl hf hm

/-- C4 witness: a constructed `6F` node wrapping one `84` node with a
nonempty value; `findTag` returns exactly the head of the DFS match list. -/
theorem findTag_first_nonempty_match_witness :
    findTag [0x6F, 0x03, 0x84, 0x01, 0x42] 0x84 = some [0x42] ∧
    [] ∉ matchesDFS [0x6F, 0x03, 0x84, 0x01, 0x42] 0x84 ∧
    ([0x42] : List Nat) = (matchesDFS [0x6F, 0x03, 0x84, 0x01, 0x42] 0x84).headD [] :=
  ⟨by decide, by decide,
    findTag_first_nonempty_match [0x6F, 0x03, 0x84, 0x01, 0x42] 0x84 [0x42]
      (by decide) (by decide)⟩

/-- C5 counterexample.  The first length byte `0x82` has its high bit set
and announces two extra length bytes in BER, so the claim requires the
decode to fail; instead the code reads the single following byte `0x01` as
the length and produces the value `[0x2C]`. -/
theorem findTag_long_form_counterexample :
    (0x82 : Nat) &&& 128 ≠ 0 ∧ (0x82 : Nat) &&& 127 = 2 ∧
    findTag [0x50, 0x82, 0x01, 0x2C] 0x50 = some [0x2C] ∧
    ([0x2C] : List Nat) ≠ [] := by
  decide

/-- C5 amended.  `findTag`'s length decoding reads exactly one extra byte
when the first length byte has its high bit set and takes that byte's full
value as the length, regardless of that byte's own high bit: for every
single-byte tag `t` equal to the target, every long-form marker `l1`
(including markers such as `0x82` that in BER announce more than one extra
length byte), and every next byte `l2` within bounds, a value of `l2` bytes
is produced rather than a failure. -/
theorem findTag_long_form_takes_next_byte (t l1 l2 tgt : Nat) (rest : List Nat)
    (ht : t % 32 ≠ 31) (hl1 : l1 &&& 128 ≠ 0) (hl2 : l2 ≤ rest.length)
    (htgt : t = tgt) :
    findTag (t :: l1 :: l2 :: rest) tgt = some (rest.take l2) := by
  subst htgt
  have hfl : (t :: l1 :: l2 :: rest).length = (rest.length + 2) + 1 := rfl
  have hdh : decodeHeader (t :: l1 :: l2 :: rest) = some (t, l2, 3) := by
    simp only [decodeHeader]
    rw [if_neg ht, if_pos hl1]
  unfold findTag
  rw [hfl, findTagF]
  rw [if_neg (by simp only [List.length_cons]; omega)]
  simp only [hdh]
  rw [if_pos (by simp only [List.length_cons]; omega)]
  simp

/-- C5 witness: the amended theorem at the counterexample bytes — tag
`0x50`, long-form marker `0x82`, next byte `0x01` used as the length. -/
theorem findTag_long_form_takes_next_byte_witness :
    (0x50 : Nat) % 32 ≠ 31 ∧ (0x82 : Nat) &&& 128 ≠ 0 ∧ 1 ≤ ([0x2C] : List Nat).length ∧
    findTag [0x50, 0x82, 0x01, 0x2C] 0x50 = some (([0x2C] : List Nat).take 1) :=
  ⟨by decide, by decide, by decide,
    findTag_long_form_takes_next_byte 0x50 0x82 1 0x50 [0x2C]
      (by decide) (by decide) (by decide) rfl⟩

/-- C10.  On the 3-byte buffer whose first byte has all low 5 bits set
(two-byte tag) and whose length byte `0x80` has the high bit set, the
source reads `ber_data[3]` — one past the end of the vector.  In the total
embedding this is the error branch, so the claim that the branch is
unreachable fails exactly at the input the claim names. -/
theorem findTag_oob_read_on_three_byte_long_form :
    findTag [0x1F, 0x00, 0x80] 0x1F00 = none := by
  decide

/-- C7 counterexample.  The claim says the PDOL synthesizer leaves its
input request buffer unchanged.  The source consumes the buffer with
`pdol.erase(pdol.begin(), pdol.begin() + headerLen)` each iteration: after
synthesizing the request `9F 1A 02` the caller's buffer is empty, not the
original three bytes. -/
theorem constructPdolData_mutates_input_counterexample :
    constructPdolData [0x9F, 0x1A, 0x02] = some ([0x02, 0x76], []) ∧
    ([] : List Nat) ≠ [0x9F, 0x1A, 0x02] := by
  decide

theorem constructPdolDataF_cons2 (n t0 t1 : Nat) (rest : List Nat) :
    constructPdolDataF (n + 1) (t0 :: t1 :: rest) =
      if (t0 :: t1 :: rest).length < 2 then some ([], t0 :: t1 :: rest)
      else
        if t0 % 32 = 31 then
          match rest with
          | [] => none
          | l :: rest2 =>
            (constructPdolDataF n rest2).map
              (fun rp => (pdolValue (t0 * 256 + t1) l ++ rp.1, rp.2))
        else
          (constructPdolDataF n rest).map (fun rp => (pdolValue t0 t1 ++ rp.1, rp.2)) :=
  rfl

theorem constructPdolDataF_consumes (fuel : Nat) :
    ∀ (pdol res fin : List Nat), pdol.length ≤ fuel →
      constructPdolDataF fuel pdol = some (res, fin) →
      (pdol.length < 2 ∧ fin = pdol) ∨ fin.length ≤ 1 := by
  induction fuel with
  | zero =>
    intro pdol res fin hlen h
    simp only [constructPdolDataF, Option.some.injEq, Prod.mk.injEq] at h
    exact Or.inl ⟨by omega, h.2.symm⟩
  | succ n ih =>
    intro pdol res fin hlen h
    cases pdol with
    | nil =>
      simp [constructPdolDataF] at h
      exact Or.inl ⟨by simp, h.2⟩
    | cons t0 tl =>
      cases tl with
      | nil =>
        simp [constructPdolDataF] at h
        exact Or.inl ⟨by simp, h.2.symm⟩
      | cons t1 rest =>
        rw [constructPdolDataF_cons2,
          if_neg (by simp only [List.length_cons]; omega)] at h
        by_cases hmt : t0 % 32 = 31
        · rw [if_pos hmt] at h
          cases rest with
          | nil => simp at h
          | cons l rest2 =>
            simp only [Option.map_eq_some', Prod.mk.injEq] at h
            obtain ⟨rp, hrp, _, hfin⟩ := h
            have hlen2 : rest2.length ≤ n := by
              simp only [List.length_cons] at hlen
              omega
            rcases ih rest2 rp.1 rp.2 hlen2 (by rw [hrp]) with hc | hc
            · right
              rw [← hfin, hc.2]
              omega
            · right
              rw [← hfin]
              exact hc
        · rw [if_neg hmt] at h
          simp only [Option.map_eq_some', Prod.mk.injEq] at h
          obtain ⟨rp, hrp, _, hfin⟩ := h
          have hlen2 : rest.length ≤ n := by
            simp only [List.length_cons] at hlen
            omega
          rcases ih rest rp.1 rp.2 hlen2 (by rw [hrp]) with hc | hc
          · right
            rw [← hfin, hc.2]
            omega
          · right
            rw [← hfin]
            exact hc

/-- C7 amended.  The PDOL synthesizer consumes its request buffer in
place: whenever it returns normally, the caller observes either the
untouched buffer (only when the request had fewer than 2 bytes, so the
loop never ran) or a leftover of at most one byte — never the original
request bytes of a loop-entered call. -/
theorem constructPdolData_consumes_input (pdol res fin : List Nat)
    (h : constructPdolData pdol = some (res, fin)) :
    (pdol.length < 2 ∧ fin = pdol) ∨ fin.length ≤ 1 :=
  constructPdolDataF_consumes pdol.length pdol res fin le_rfl h

/-- C7 witness: the amended theorem at the request `9F 1A 02`, whose
synthesis leaves the empty buffer behind. -/
theorem constructPdolData_consumes_input_witness :
    constructPdolData [0x9F, 0x1A, 0x02] = some ([0x02, 0x76], []) ∧
    ((([0x9F, 0x1A, 0x02] : List Nat).length < 2 ∧ ([] : List Nat) = [0x9F, 0x1A, 0x02]) ∨
      ([] : List Nat).length ≤ 1) :=
  ⟨by decide, constructPdolData_consumes_input [0x9F, 0x1A, 0x02] [0x02, 0x76] []
    (by decide)⟩

theorem exists_last_two {l : List Nat} (h : 2 ≤ l.length) :
    ∃ m a b, l = m ++ [a, b] := by
  match hr : l.reverse with
  | [] =>
    rw [← l.reverse_reverse, hr] at h
    simp at h
  | [x] =>
    rw [← l.reverse_reverse, hr] at h
    simp at h
  | b :: a :: m =>
    exact ⟨m.reverse, a, b, by rw [← l.reverse_reverse, hr]; simp⟩

theorem getD_last_two (x a b d : Nat) (p : List Nat) :
    (x :: (p ++ [a, b])).getD (p.length + 2) d = b ∧
    (x :: (p ++ [a, b])).getD (p.length + 1) d = a := by
  have he : (x :: (p ++ [a, b])) = (x :: p) ++ [a, b] := rfl
  constructor
  · rw [he, List.getD_append_right _ _ _ _ (by simp only [List.length_cons]; omega)]
    have h1 : p.length + 2 - (x :: p).length = 1 := by
      simp only [List.length_cons]
      omega
    rw [h1]
    rfl
  · rw [he, List.getD_append_right _ _ _ _ (by simp only [List.length_cons]; omega)]
    have h0 : p.length + 1 - (x :: p).length = 0 := by
      simp only [List.length_cons]
      omega
    rw [h0]
    rfl

theorem sendAPDU_none (w : Bool) : sendAPDU w none = ApduResult.fail := by
  cases w <;> rfl

theorem sendAPDU_some_cons (w : Bool) (r0 : Nat) (tail : List Nat) :
    sendAPDU w (some (r0 :: tail)) =
      if w = false then ApduResult.fail
      else if r0 ≠ 0 then ApduResult.fail
      else if (r0 :: tail).length < 2 then ApduResult.oob
      else if (r0 :: tail).getD ((r0 :: tail).length - 1) 0 ≠ 0x00
          ∨ (r0 :: tail).getD ((r0 :: tail).length - 2) 0 ≠ 0x90 then ApduResult.fail
      else ApduResult.ok (((r0 :: tail).drop 1).take ((r0 :: tail).length - 3)) :=
  rfl

/-- C9.  `sendAPDU` fails when the transport write fails, when the read
fails, when the response's first byte is non-zero, and when the response's
last two bytes are not exactly `0x90 0x00`; and it succeeds with payload
`p` exactly when the write succeeded and the response was the leading zero
byte, then `p`, then the success status word — i.e. on success it returns
the response with the leading transport byte and the two trailing
status-word bytes stripped. -/
theorem sendAPDU_contract (w : Bool) (rr : Option (List Nat)) :
    (w = false → sendAPDU w rr = ApduResult.fail)
    ∧ (rr = none → sendAPDU w rr = ApduResult.fail)
    ∧ (∀ b tail, rr = some (b :: tail) → b ≠ 0 → sendAPDU w rr = ApduResult.fail)
    ∧ (∀ p a b, rr = some (0 :: (p ++ [a, b])) → (a, b) ≠ (0x90, 0x00) →
        sendAPDU w rr = ApduResult.fail)
    ∧ (∀ p, sendAPDU w rr = ApduResult.ok p ↔
        w = true ∧ rr = some (0x00 :: (p ++ [0x90, 0x00]))) := by
  refine ⟨?_, ?_, ?_, ?_, ?_⟩
  · intro hw
    simp [sendAPDU, hw]
  · intro hrr
    subst hrr
    exact sendAPDU_none w
  · intro b tail hrr hb
    subst hrr
    rw [sendAPDU_some_cons, if_pos hb]
    exact ite_self _
  · intro p a b hrr hab
    subst hrr
    by_cases hw : w = false
    · rw [sendAPDU_some_cons, if_pos hw]
    · have hlen : (0 :: (p ++ [a, b])).length = p.length + 3 := by simp
      have hsw : (0 :: (p ++ [a, b])).getD ((0 :: (p ++ [a, b])).length - 1) 0 ≠ 0x00
          ∨ (0 :: (p ++ [a, b])).getD ((0 :: (p ++ [a, b])).length - 2) 0 ≠ 0x90 := by
        rw [(show (0 :: (p ++ [a, b])).length - 1 = p.length + 2 from by
            simp only [hlen]; omega),
          (show (0 :: (p ++ [a, b])).length - 2 = p.length + 1 from by
            simp only [hlen]; omega),
          (getD_last_two 0 a b 0 p).1, (getD_last_two 0 a b 0 p).2]
        by_contra hcon
        push_neg at hcon
        exact hab (by simp [hcon.1, hcon.2])
      rw [sendAPDU_some_cons, if_neg hw, if_neg (by simp : ¬(0 : Nat) ≠ 0),
        if_neg (by simp only [hlen]; omega : ¬(0 :: (p ++ [a, b])).length < 2),
        if_pos hsw]
  · intro p
    constructor
    · intro hok
      by_cases hw : w = false
      · rw [show sendAPDU w rr = ApduResult.fail from by simp [sendAPDU, hw]] at hok
        exact absurd hok (by simp)
      · have hw' : w = true := by
          cases w
          · exact absurd rfl hw
          · rfl
        refine ⟨hw', ?_⟩
        cases rr with
        | none => rw [sendAPDU_none] at hok; exact absurd hok (by simp)
        | some resp =>
          cases resp with
          | nil =>
            rw [show sendAPDU w (some []) = ApduResult.oob from by
              subst hw'; rfl] at hok
            exact absurd hok (by simp)
          | cons r0 tail =>
            rw [sendAPDU_some_cons, if_neg hw] at hok
            by_cases h1 : r0 ≠ 0
            · rw [if_pos h1] at hok
              exact absurd hok (by simp)
            · rw [if_neg h1] at hok
              push_neg at h1
              subst h1
              by_cases h2 : (0 :: tail).length < 2
              · rw [if_pos h2] at hok
                exact absurd hok (by simp)
              · rw [if_neg h2] at hok
                by_cases h3 : (0 :: tail).getD ((0 :: tail).length - 1) 0 ≠ 0x00
                    ∨ (0 :: tail).getD ((0 :: tail).length - 2) 0 ≠ 0x90
                · rw [if_pos h3] at hok
                  exact absurd hok (by simp)
                · rw [if_neg h3] at hok
                  push_neg at h3
                  by_cases h4 : 2 ≤ tail.length
                  · obtain ⟨m, a, b, rfl⟩ := exists_last_two h4
                    have hlen : (0 :: (m ++ [a, b])).length = m.length + 3 := by simp
                    rw [(show (0 :: (m ++ [a, b])).length - 1 = m.length + 2 from by
                        simp only [hlen]; omega),
                      (show (0 :: (m ++ [a, b])).length - 2 = m.length + 1 from by
                        simp only [hlen]; omega),
                      (getD_last_two 0 a b 0 m).1, (getD_last_two 0 a b 0 m).2] at h3
                    rw [(show (0 :: (m ++ [a, b])).length - 3 = m.length from by
                      simp only [hlen]; omega)] at hok
                    simp only [List.drop_succ_cons, List.drop_zero] at hok
                    rw [List.take_left] at hok
                    simp only [ApduResult.ok.injEq] at hok
                    rw [h3.1, h3.2, hok]
                  · have ht1 : tail.length = 1 := by
                      simp only [List.length_cons] at h2
                      omega
                    cases tail with
                    | nil => simp at ht1
                    | cons x t2 =>
                      have ht2 : t2 = [] := by
                        simp only [List.length_cons] at ht1
                        exact List.eq_nil_of_length_eq_zero (by omega)
                      subst ht2
                      simp at h3
    · rintro ⟨hw, hrr⟩
      subst hw
      subst hrr
      have hlen : (0 :: (p ++ [0x90, 0x00])).length = p.length + 3 := by simp
      have hsw : ¬((0 :: (p ++ [0x90, 0x00])).getD
            ((0 :: (p ++ [0x90, 0x00])).length - 1) 0 ≠ 0x00
          ∨ (0 :: (p ++ [0x90, 0x00])).getD
            ((0 :: (p ++ [0x90, 0x00])).length - 2) 0 ≠ 0x90) := by
        rw [(show (0 :: (p ++ [0x90, 0x00])).length - 1 = p.length + 2 from by
            simp only [hlen]; omega),
          (show (0 :: (p ++ [0x90, 0x00])).length - 2 = p.length + 1 from by
            simp only [hlen]; omega),
          (getD_last_two 0 0x90 0x00 0 p).1, (getD_last_two 0 0x90 0x00 0 p).2]
        simp
      rw [sendAPDU_some_cons, if_neg (by simp : ¬true = false),
        if_neg (by simp : ¬(0 : Nat) ≠ 0),
        if_neg (by simp only [hlen]; omega : ¬(0 :: (p ++ [0x90, 0x00])).length < 2),
        if_neg hsw,
        (show (0 :: (p ++ [0x90, 0x00])).length - 3 = p.length from by
          simp only [hlen]; omega)]
      simp only [List.drop_succ_cons, List.drop_zero]
      rw [List.take_left]

/-- C9 witness: the contract applied to a successful exchange — write ok,
response `00 6F 01 90 00` — yielding the stripped payload `6F 01`. -/
theorem sendAPDU_contract_witness :
    sendAPDU true (some [0x00, 0x6F, 0x01, 0x90, 0x00]) = ApduResult.ok [0x6F, 0x01] :=
  ((sendAPDU_contract true (some [0x00, 0x6F, 0x01, 0x90, 0x00])).2.2.2.2
    [0x6F, 0x01]).mpr ⟨rfl, rfl⟩

/-- C1.  A scripted transport answers PPSE-select with an AID-bearing
response, AID-select with a PDOL-bearing response, and GPO with a response
carrying Track 2 Equivalent Data directly.  The orchestrator issues no
READ RECORD command (no issued APDU starts with `00 B2`), and the Track 2
value it extracts parses to the 16-digit PAN — but `read_mifare_plus_bytes_`
returns `false`, discarding the parsed PAN instead of returning it as a
success (every return statement in the source returns `false`, and the
`data` out-parameter is never written). -/
theorem read_mifare_plus_gpo_track2_returns_false :
    read_mifare_plus_bytes_
        [some [0x00, 0x4F, 0x07, 0xA0, 0x00, 0x00, 0x00, 0x04, 0x10, 0x10, 0x90, 0x00],
         some [0x00, 0x9F, 0x38, 0x03, 0x9F, 0x1A, 0x02, 0x90, 0x00],
         some [0x00, 0x57, 0x09, 0x44, 0x00, 0x66, 0x49, 0x87, 0x36, 0x60, 0x29, 0xD2,
               0x90, 0x00]] =
      some (false,
        [[0x00, 0xA4, 0x04, 0x00, 0x0E, 0x32, 0x50, 0x41, 0x59, 0x2E, 0x53, 0x59, 0x53,
          0x2E, 0x44, 0x44, 0x46, 0x30, 0x31, 0x00],
         [0x00, 0xA4, 0x04, 0x00, 0x07, 0xA0, 0x00, 0x00, 0x00, 0x04, 0x10, 0x10, 0x00],
         [0x80, 0xA8, 0x00, 0x00, 0x04, 0x83, 0x02, 0x02, 0x76, 0x00]]) ∧
    findTag [0x57, 0x09, 0x44, 0x00, 0x66, 0x49, 0x87, 0x36, 0x60, 0x29, 0xD2] 0x57 =
      some [0x44, 0x00, 0x66, 0x49, 0x87, 0x36, 0x60, 0x29, 0xD2] ∧
    parse_track2 [0x44, 0x00, 0x66, 0x49, 0x87, 0x36, 0x60, 0x29, 0xD2] =
      [4, 4, 0, 0, 6, 6, 4, 9, 8, 7, 3, 6, 6, 0, 2, 9] ∧
    (∀ a ∈ [[0x00, 0xA4, 0x04, 0x00, 0x0E, 0x32, 0x50, 0x41, 0x59, 0x2E, 0x53, 0x59,
             0x53, 0x2E, 0x44, 0x44, 0x46, 0x30, 0x31, 0x00],
            [0x00, 0xA4, 0x04, 0x00, 0x07, 0xA0, 0x00, 0x00, 0x00, 0x04, 0x10, 0x10,
             0x00],
            [0x80, 0xA8, 0x00, 0x00, 0x04, 0x83, 0x02, 0x02, 0x76, 0x00]],
      a.take 2 ≠ [0x00, 0xB2]) := by
  decide

/-- C2.  The AFL guard and the AFL scan, driven end to end.  First
conjunct: with a well-formed 8-byte AFL (two entries: SFI byte `10`,
records 1–2, and SFI byte `18`, record 1–1) and record reads that all
fail, the orchestrator issues READ RECORDs only for the records of the
first entry (SFI byte `14` after the read-all-records marker) — the
claim's third READ RECORD `00 B2 01 1C 00` for the second entry is never
issued, because the loop condition `pos < afl.size() - 4` stops one entry
early.  Second conjunct: a 3-byte AFL aborts the read with no READ RECORD
issued. -/
theorem read_mifare_plus_afl_scan_skips_last_entry :
    read_mifare_plus_bytes_
        [some [0x00, 0x4F, 0x07, 0xA0, 0x00, 0x00, 0x00, 0x04, 0x10, 0x10, 0x90, 0x00],
         some [0x00, 0x9F, 0x38, 0x03, 0x9F, 0x1A, 0x02, 0x90, 0x00],
         some [0x00, 0x94, 0x08, 0x10, 0x01, 0x02, 0x00, 0x18, 0x01, 0x01, 0x00,
               0x90, 0x00],
         none, none] =
      some (false,
        [[0x00, 0xA4, 0x04, 0x00, 0x0E, 0x32, 0x50, 0x41, 0x59, 0x2E, 0x53, 0x59, 0x53,
          0x2E, 0x44, 0x44, 0x46, 0x30, 0x31, 0x00],
         [0x00, 0xA4, 0x04, 0x00, 0x07, 0xA0, 0x00, 0x00, 0x00, 0x04, 0x10, 0x10, 0x00],
         [0x80, 0xA8, 0x00, 0x00, 0x04, 0x83, 0x02, 0x02, 0x76, 0x00],
         [0x00, 0xB2, 0x01, 0x14, 0x00],
         [0x00, 0xB2, 0x02, 0x14, 0x00]]) ∧
    [0x00, 0xB2, 0x01, 0x1C, 0x00] ∉
      [[0x00, 0xA4, 0x04, 0x00, 0x0E, 0x32, 0x50, 0x41, 0x59, 0x2E, 0x53, 0x59, 0x53,
        0x2E, 0x44, 0x44, 0x46, 0x30, 0x31, 0x00],
       [0x00, 0xA4, 0x04, 0x00, 0x07, 0xA0, 0x00, 0x00, 0x00, 0x04, 0x10, 0x10, 0x00],
       [0x80, 0xA8, 0x00, 0x00, 0x04, 0x83, 0x02, 0x02, 0x76, 0x00],
       [0x00, 0xB2, 0x01, 0x14, 0x00],
       [0x00, 0xB2, 0x02, 0x14, 0x00]] ∧
    read_mifare_plus_bytes_
        [some [0x00, 0x4F, 0x07, 0xA0, 0x00, 0x00, 0x00, 0x04, 0x10, 0x10, 0x90, 0x00],
         some [0x00, 0x9F, 0x38, 0x03, 0x9F, 0x1A, 0x02, 0x90, 0x00],
         some [0x00, 0x94, 0x03, 0x01, 0x02, 0x03, 0x90, 0x00]] =
      some (false,
        [[0x00, 0xA4, 0x04, 0x00, 0x0E, 0x32, 0x50, 0x41, 0x59, 0x2E, 0x53, 0x59, 0x53,
          0x2E, 0x44, 0x44, 0x46, 0x30, 0x31, 0x00],
         [0x00, 0xA4, 0x04, 0x00, 0x07, 0xA0, 0x00, 0x00, 0x00, 0x04, 0x10, 0x10, 0x00],
         [0x80, 0xA8, 0x00, 0x00, 0x04, 0x83, 0x02, 0x02, 0x76, 0x00]]) := by
  decide
